import Mathlib

/-!
# espoofing: SPF / DMARC spoofing scanner

A shallow embedding of `espoofing.go`.

Modelling conventions.

* A Go `string` is a Lean `String`, read as its list of runes (`String.data`).  For
  well-formed UTF-8 text the byte-wise `strings.HasPrefix`, `strings.HasSuffix` and
  `strings.Contains` agree with their rune-wise counterparts, because UTF-8 is
  self-synchronising.
* `strings.ToLower` and `strings.TrimSpace` come from the Go standard library.  Their ASCII
  behaviour is written out; the Unicode case table used for runes above U+007F is a
  parameter `lowerTable`, and `unicode.IsSpace` is the fixed `White_Space` set.
* `net.LookupTXT` is a parameter `lookupTXT` returning either an error or the list of TXT
  strings of the answer.
* Standard output and the ledger file `vuln-domains.txt` are explicit state (`World`).
* The file read by `scanFromFile` is the list of its raw lines (the bytes between newlines);
  `bufio.Scanner` with its default buffer is `scannerScan`.
* Goroutines and channels of `scanFromFile` are a step function on a `Pipeline` state, driven
  by a schedule (a list of thread identifiers).
-/

namespace Espoofing

/-! ## Standard-library string functions -/

/-- Go `unicode.ToLower`: ASCII letters are shifted by `'a' - 'A'`, other ASCII runes are
unchanged, and runes above U+007F go through the Unicode case table. -/
def unicodeToLower (lowerTable : Char → Char) (r : Char) : Char :=
  if r.toNat ≤ 0x7F then
    if 'A'.toNat ≤ r.toNat ∧ r.toNat ≤ 'Z'.toNat then Char.ofNat (r.toNat + ('a'.toNat - 'A'.toNat))
    else r
  else lowerTable r

/-- Go `strings.ToLower`: every rune is mapped through `unicode.ToLower` (the ASCII fast path of
the library computes the same string). -/
def ToLower (lowerTable : Char → Char) (s : String) : String :=
  ⟨s.data.map (unicodeToLower lowerTable)⟩

/-- Search loop of `strings.Index`: is `substr` a prefix of some tail of the text? -/
def indexFrom (substr : List Char) : List Char → Bool
  | [] => substr.isPrefixOf []
  | c :: cs => substr.isPrefixOf (c :: cs) || indexFrom substr cs

/-- Go `strings.Contains(s, substr)`. -/
def Contains (s substr : String) : Bool :=
  indexFrom substr.data s.data

/-- Go `strings.HasPrefix(s, pre)`. -/
def HasPrefix (s pre : String) : Bool :=
  pre.data.isPrefixOf s.data

/-- Go `strings.HasSuffix(s, suf)`. -/
def HasSuffix (s suf : String) : Bool :=
  suf.data.isSuffixOf s.data

/-- Go `unicode.IsSpace`: the Latin-1 cases and the `White_Space` ranges above them. -/
def isSpace (r : Char) : Bool :=
  let n := r.toNat
  if n ≤ 0xFF then
    n == 0x09 || n == 0x0A || n == 0x0B || n == 0x0C || n == 0x0D || n == 0x20 ||
      n == 0x85 || n == 0xA0
  else
    n == 0x1680 || (0x2000 ≤ n && n ≤ 0x200A) || n == 0x2028 || n == 0x2029 ||
      n == 0x202F || n == 0x205F || n == 0x3000

/-- Go `strings.TrimSpace`: leading white space is dropped, then trailing white space. -/
def TrimSpace (s : String) : String :=
  ⟨(s.data.dropWhile isSpace).rdropWhile isSpace⟩

/-! ## Data model -/

/-- The per-domain scan result (`type DNSRecord struct`). -/
structure DNSRecord where
  Domain : String
  SPF : String
  DMARC : String
  SPFVuln : Bool
  DMARCVuln : Bool
deriving DecidableEq

/-- The ledger file handle: its bytes so far and whether `Close` has been called. -/
structure File where
  content : String
  closed : Bool
deriving DecidableEq

/-- The mutable surroundings of a `Scanner`: standard output and the `vulnFile` field
(`none` is the Go `nil` left by a failed `os.Create`).  The `timeout` field of the Go struct is
never read by any method, and `vulnMutex` only makes `WriteString` atomic, which it is here. -/
structure World where
  stdout : String
  vulnFile : Option File
deriving DecidableEq

/-- The outcome of `net.LookupTXT`: an error text or the TXT strings of the answer. -/
abbrev Resolver := String → Except String (List String)

/-! ## Record analyzer -/

/-- The slice `vulnIndicators` of `analyzeSPF`. -/
def vulnIndicators : List String :=
  ["~all", "+all", "?all", "redirect"]

/-- The `for _, indicator := range vulnIndicators` loop of `analyzeSPF`. -/
def indicatorLoop (record : String) : List String → Bool
  | [] => false
  | indicator :: rest => if Contains record indicator then true else indicatorLoop record rest

/-- `Scanner.analyzeSPF`: `true` means vulnerable. -/
def analyzeSPF (lowerTable : Char → Char) (record : String) : Bool :=
  let record := ToLower lowerTable record
  if !Contains record "-all" then true
  else indicatorLoop record vulnIndicators

/-- `Scanner.analyzeDMARC`: `true` means vulnerable. -/
def analyzeDMARC (lowerTable : Char → Char) (record : String) : Bool :=
  let record := ToLower lowerTable record
  if Contains record "p=none" then true
  else if !Contains record "p=quarantine" && !Contains record "p=reject" then true
  else if Contains record "pct=" then
    if Contains record "pct=0" || Contains record "pct=1" then true else false
  else false

/-! ## Lookup client and domain scanner -/

/-- The `for _, record := range txtRecords` loop of `checkSPF`. -/
def spfLoop (lowerTable : Char → Char) : List String → String × Bool
  | [] => ("", true)
  | record :: rest =>
    if HasPrefix record "v=spf1" then (record, analyzeSPF lowerTable record)
    else spfLoop lowerTable rest

/-- `Scanner.checkSPF`. -/
def checkSPF (lowerTable : Char → Char) (lookupTXT : Resolver) (domain : String) :
    String × Bool :=
  match lookupTXT domain with
  | .error _ => ("", false)
  | .ok txtRecords => spfLoop lowerTable txtRecords

/-- The `for _, record := range txtRecords` loop of `checkDMARC`. -/
def dmarcLoop (lowerTable : Char → Char) : List String → String × Bool
  | [] => ("", true)
  | record :: rest =>
    if HasPrefix record "v=DMARC1" then (record, analyzeDMARC lowerTable record)
    else dmarcLoop lowerTable rest

/-- `Scanner.checkDMARC`. -/
def checkDMARC (lowerTable : Char → Char) (lookupTXT : Resolver) (domain : String) :
    String × Bool :=
  let dmarcDomain := "_dmarc." ++ domain
  match lookupTXT dmarcDomain with
  | .error _ => ("", true)
  | .ok txtRecords => dmarcLoop lowerTable txtRecords

/-- `Scanner.scanDomain`. -/
def scanDomain (lowerTable : Char → Char) (lookupTXT : Resolver) (domain : String) :
    DNSRecord :=
  let domain := TrimSpace domain
  let (spf, spfVuln) := checkSPF lowerTable lookupTXT domain
  let (dmarc, dmarcVuln) := checkDMARC lowerTable lookupTXT domain
  { Domain := domain, SPF := spf, SPFVuln := spfVuln, DMARC := dmarc, DMARCVuln := dmarcVuln }

/-! ## Vulnerability sink and reporter -/

/-- `fmt.Printf` with the formatted text already assembled. -/
def World.printf (w : World) (text : String) : World :=
  { w with stdout := w.stdout ++ text }

/-- `Scanner.saveVulnerableDomain`: a no-op without a ledger; `WriteString` on a closed file
fails with `os.ErrClosed` and writes nothing. -/
def saveVulnerableDomain (domain : String) (w : World) : World :=
  match w.vulnFile with
  | none => w
  | some f =>
    if f.closed then
      w.printf ("[-] Error to save the vulnerable domain: " ++
        "write vuln-domains.txt: file already closed" ++ "\n")
    else
      { w with vulnFile := some { f with content := f.content ++ (domain ++ "\n") } }

/-- The status line pair printed for a record that was found. -/
def statusLines (label indent record : String) (vuln : Bool) : String :=
  let status := if vuln then "VULNERABLE" else "OK"
  let color := if vuln then "\x1b[31m" else "\x1b[32m"
  "    " ++ label ++ ": " ++ color ++ "[" ++ status ++ "]" ++ "\x1b[0m" ++ "\n" ++
    indent ++ record ++ "\n"

/-- `Scanner.printResult`. -/
def printResult (record : DNSRecord) (w : World) : World :=
  let w := w.printf ("\n[*] Domain: " ++ record.Domain ++ "\n")
  let w :=
    if record.SPF == "" then
      w.printf ("    SPF: " ++ "\x1b[31m" ++ "[NOT FOUND - VULNERABLE]" ++ "\x1b[0m" ++ "\n")
    else w.printf (statusLines "SPF" "         " record.SPF record.SPFVuln)
  let w :=
    if record.DMARC == "" then
      w.printf ("    DMARC: " ++ "\x1b[31m" ++ "[NOT FOUND - VULNERABLE]" ++ "\x1b[0m" ++ "\n")
    else w.printf (statusLines "DMARC" "           " record.DMARC record.DMARCVuln)
  if record.SPFVuln || record.DMARCVuln then
    saveVulnerableDomain record.Domain
      (w.printf ("    " ++ "\x1b[33m" ++ "[!] SPOOFING POSSIBLE" ++ "\x1b[0m" ++ "\n"))
  else w

/-- The reporter applied to results in the order it receives them. -/
def report (results : List DNSRecord) (w : World) : World :=
  results.foldl (fun w result => printResult result w) w

/-- `NewScanner`: `os.Create` either fails with an error text, which is printed and leaves
`vulnFile` nil, or yields the empty, open ledger. -/
def NewScanner (createErr : Option String) : World :=
  match createErr with
  | some err =>
    { stdout := "[-] Error to create vuln-domains.txt file: " ++ err ++ "\n", vulnFile := none }
  | none => { stdout := "", vulnFile := some { content := "", closed := false } }

/-- The state `NewScanner` leaves when `os.Create` succeeds: nothing printed, the ledger
empty and open. -/
def World.fresh : World :=
  NewScanner none

/-! ## Scan pipeline -/

/-- `bufio.MaxScanTokenSize`, the buffer limit of a `bufio.NewScanner`. -/
def maxScanTokenSize : Nat := 64 * 1024

/-- `dropCR` of package `bufio`: a final carriage return is dropped from the line. -/
def dropCR (data : String) : String :=
  match data.data.getLast? with
  | some c => if c = '\r' then ⟨data.data.dropLast⟩ else data
  | none => data

/-- `scanner.Scan()` followed by `scanner.Text()` on the raw lines still unread: the next line,
without its carriage return, and the lines after it.  `Scan` returns false (`none`) at the end
of the file and also when the next line does not fit the buffer (`bufio.ErrTooLong`); the code
never looks at `scanner.Err()`. -/
def scannerScan : List String → Option (String × List String)
  | [] => none
  | raw :: rest =>
    if raw.utf8ByteSize < maxScanTokenSize then some (dropCR raw, rest) else none

/-- Capacity of both channels (`make(chan _, 100)`). -/
def chanCap : Nat := 100

/-- Program points of the main goroutine inside `scanFromFile`, after the goroutines were
started. -/
inductive MainPc
  | readLoop
  | closeDomains
  | wgWait
  | closeResults
  | closeVulnFile
  | returned
deriving DecidableEq

/-- Program points of a worker goroutine: at the `range domains` receive, at the
`results <- result` send, or past `wg.Done()`. -/
inductive WorkerPc
  | recv
  | send (result : DNSRecord)
  | done
deriving DecidableEq

/-- The goroutines of `scanFromFile`. -/
inductive Thread
  | main
  | worker (i : Nat)
  | reporter
deriving DecidableEq

/-- The state of a running `scanFromFile`: the program point of the main goroutine, the raw
lines not yet read, both channels, the workers, the reporter and the surroundings.  The channel
`domains` is kept as the sequence of all values sent on it, oldest first, together with the
number `received` of values the workers have taken from its front; the values still buffered
are those after the first `received`. -/
structure Pipeline where
  pc : MainPc
  input : List String
  domains : List String
  received : Nat
  domainsClosed : Bool
  workers : List WorkerPc
  results : List DNSRecord
  resultsClosed : Bool
  reporterDone : Bool
  world : World
deriving DecidableEq

/-- The state after the workers and the reporter were started and before the first line is
read; a non-positive `threads` starts no worker. -/
def Pipeline.init (threads : Int) (lines : List String) (w : World) : Pipeline :=
  { pc := .readLoop, input := lines, domains := [], received := 0, domainsClosed := false,
    workers := List.replicate threads.toNat .recv, results := [], resultsClosed := false,
    reporterDone := false, world := w }

/-- One step of the main goroutine; `none` when it is blocked or has returned. -/
def stepMain (p : Pipeline) : Option Pipeline :=
  match p.pc with
  | .readLoop =>
    match scannerScan p.input with
    | none => some { p with pc := .closeDomains }
    | some (text, rest) =>
      let domain := TrimSpace text
      if domain != "" then
        if p.domains.length - p.received < chanCap then
          some { p with input := rest, domains := p.domains ++ [domain] }
        else none
      else some { p with input := rest }
  | .closeDomains => some { p with domainsClosed := true, pc := .wgWait }
  | .wgWait => if p.workers.all (· == .done) then some { p with pc := .closeResults } else none
  | .closeResults => some { p with resultsClosed := true, pc := .closeVulnFile }
  | .closeVulnFile =>
    some { p with
      world := { p.world with vulnFile := p.world.vulnFile.map (fun f => { f with closed := true }) },
      pc := .returned }
  | .returned => none

/-- One step of worker `i`; `none` when it is blocked, finished or does not exist. -/
def stepWorker (lowerTable : Char → Char) (lookupTXT : Resolver) (i : Nat) (p : Pipeline) :
    Option Pipeline :=
  match p.workers.get? i with
  | none => none
  | some .recv =>
    match p.domains.get? p.received with
    | some domain =>
      some { p with received := p.received + 1,
                    workers := p.workers.set i (.send (scanDomain lowerTable lookupTXT domain)) }
    | none => if p.domainsClosed then some { p with workers := p.workers.set i .done } else none
  | some (.send result) =>
    if p.results.length < chanCap then
      some { p with results := p.results ++ [result], workers := p.workers.set i .recv }
    else none
  | some .done => none

/-- One step of the reporter goroutine; `none` when it is blocked or finished. -/
def stepReporter (p : Pipeline) : Option Pipeline :=
  if p.reporterDone then none
  else
    match p.results with
    | result :: rest => some { p with results := rest, world := printResult result p.world }
    | [] => if p.resultsClosed then some { p with reporterDone := true } else none

/-- One step of the chosen goroutine. -/
def step (lowerTable : Char → Char) (lookupTXT : Resolver) (t : Thread) (p : Pipeline) :
    Option Pipeline :=
  match t with
  | .main => stepMain p
  | .worker i => stepWorker lowerTable lookupTXT i p
  | .reporter => stepReporter p

/-- Run a schedule; `none` when it asks a blocked goroutine to move. -/
def run (lowerTable : Char → Char) (lookupTXT : Resolver) :
    List Thread → Pipeline → Option Pipeline
  | [], p => some p
  | t :: ts, p =>
    match step lowerTable lookupTXT t p with
    | none => none
    | some q => run lowerTable lookupTXT ts q

/-- `Scanner.scanFromFile` once `os.Open` has succeeded on a file whose raw lines are `lines`:
the goroutines are started and then interleaved as the schedule says.  (When `os.Open` fails
the function prints the error and returns before any goroutine exists.) -/
def scanFromFile (lowerTable : Char → Char) (lookupTXT : Resolver) (threads : Int)
    (lines : List String) (schedule : List Thread) (w : World) : Option Pipeline :=
  run lowerTable lookupTXT schedule (Pipeline.init threads lines w)

/-- The raw lines a `bufio.Scanner` hands out: those before the first one that does not fit
its buffer. -/
def readable (lines : List String) : List String :=
  lines.takeWhile (fun raw => decide (raw.utf8ByteSize < maxScanTokenSize))

/-- The intake sequence as the specification words it: the lines mapped through white-space
trimming, the empty results removed, in file order. -/
def specIntake (lines : List String) : List String :=
  (lines.map TrimSpace).filter (fun d => d != "")

/-- A line of 65536 letters, the shortest line a default `bufio.Scanner` cannot hand out. -/
def longLine : String :=
  ⟨List.replicate 65536 'a'⟩

/-- The mocked DNS data of the end-to-end example: `a.com` has a soft-fail SPF record and a
rejecting DMARC record, `b.com` has a hard-fail SPF record and no DMARC record. -/
def exampleResolver : Resolver := fun name =>
  if name = "a.com" then .ok ["v=spf1 include:_spf.a.com ~all"]
  else if name = "_dmarc.a.com" then .ok ["v=DMARC1; p=reject"]
  else if name = "b.com" then .ok ["google-site-verification=abc", "v=spf1 mx -all"]
  else .error "no such host"

/-! ## Substring search -/

theorem indexFrom_iff (substr l : List Char) : indexFrom substr l = true ↔ substr <:+: l := by
  induction l with
  | nil => simp [indexFrom]
  | cons c cs ih =>
    simp only [indexFrom, Bool.or_eq_true, List.isPrefixOf_iff_prefix, ih, List.infix_cons_iff]

theorem Contains_iff (s substr : String) : Contains s substr = true ↔ substr.data <:+: s.data :=
  indexFrom_iff substr.data s.data

theorem Contains_eq_false_iff (s substr : String) :
    Contains s substr = false ↔ ¬ substr.data <:+: s.data := by
  rw [← Contains_iff, Bool.not_eq_true]

theorem indicatorLoop_iff (record : String) (l : List String) :
    indicatorLoop record l = true ↔ ∃ indicator ∈ l, Contains record indicator = true := by
  induction l with
  | nil => simp [indicatorLoop]
  | cons a l ih =>
    by_cases h : Contains record a = true
    · simp [indicatorLoop, h]
    · simp [indicatorLoop, h, ih]

/-! ## Lookup loops -/

theorem spfLoop_skip (lowerTable : Char → Char) (before rest : List String)
    (h : ∀ e ∈ before, HasPrefix e "v=spf1" = false) :
    spfLoop lowerTable (before ++ rest) = spfLoop lowerTable rest := by
  induction before with
  | nil => rfl
  | cons a l ih =>
    have ha : HasPrefix a "v=spf1" = false := h a (List.mem_cons_self a l)
    have hl : ∀ e ∈ l, HasPrefix e "v=spf1" = false := fun e he => h e (List.mem_cons_of_mem a he)
    simp [spfLoop, ha, ih hl]

theorem dmarcLoop_skip (lowerTable : Char → Char) (before rest : List String)
    (h : ∀ e ∈ before, HasPrefix e "v=DMARC1" = false) :
    dmarcLoop lowerTable (before ++ rest) = dmarcLoop lowerTable rest := by
  induction before with
  | nil => rfl
  | cons a l ih =>
    have ha : HasPrefix a "v=DMARC1" = false := h a (List.mem_cons_self a l)
    have hl : ∀ e ∈ l, HasPrefix e "v=DMARC1" = false :=
      fun e he => h e (List.mem_cons_of_mem a he)
    simp [dmarcLoop, ha, ih hl]

theorem dmarcLoop_absent (lowerTable : Char → Char) (txtRecords : List String)
    (h : ∀ e ∈ txtRecords, HasPrefix e "v=DMARC1" = false) :
    dmarcLoop lowerTable txtRecords = ("", true) := by
  have := dmarcLoop_skip lowerTable txtRecords [] h
  simpa [dmarcLoop] using this

theorem first_match_split (p : String → Bool) (l : List String) (h : ∃ e ∈ l, p e = true) :
    ∃ before entry after, l = before ++ entry :: after ∧ (∀ e ∈ before, p e = false) ∧
      p entry = true := by
  induction l with
  | nil => simp at h
  | cons a l ih =>
    by_cases ha : p a = true
    · exact ⟨[], a, l, rfl, by simp, ha⟩
    · have hl : ∃ e ∈ l, p e = true := by
        obtain ⟨e, he, hpe⟩ := h
        rcases List.mem_cons.mp he with rfl | he
        · exact absurd hpe ha
        · exact ⟨e, he, hpe⟩
      obtain ⟨before, entry, after, hsplit, hbefore, hentry⟩ := ih hl
      refine ⟨a :: before, entry, after, by simp [hsplit], ?_, hentry⟩
      intro e he
      rcases List.mem_cons.mp he with rfl | he
      · simpa using ha
      · exact hbefore e he

/-! ## Record analyzer: SPF -/

/-- C2. `analyzeSPF` reports a record as vulnerable exactly when its lower-cased text has no
substring `-all`, or has one of `~all`, `+all`, `?all`, `redirect`; the three sample records
of the specification are classified accordingly. -/
theorem analyzeSPF_spec (lowerTable : Char → Char) :
    (∀ r : String,
      analyzeSPF lowerTable r = true ↔
        (¬ "-all".data <:+: (ToLower lowerTable r).data ∨
          "~all".data <:+: (ToLower lowerTable r).data ∨
          "+all".data <:+: (ToLower lowerTable r).data ∨
          "?all".data <:+: (ToLower lowerTable r).data ∨
          "redirect".data <:+: (ToLower lowerTable r).data)) ∧
    analyzeSPF lowerTable "v=spf1 include:_spf.example.com ~all" = true ∧
    analyzeSPF lowerTable "v=spf1 a -all redirect=_spf2.example.com" = true ∧
    analyzeSPF lowerTable "v=spf1 include:_spf.example.com -all" = false := by
  refine ⟨fun r => ?_, rfl, rfl, rfl⟩
  unfold analyzeSPF
  by_cases h : Contains (ToLower lowerTable r) "-all" = true
  · have h' : "-all".data <:+: (ToLower lowerTable r).data := (Contains_iff _ _).mp h
    simp only [h, Bool.not_true, Bool.false_eq_true, if_false, indicatorLoop_iff, vulnIndicators,
      List.mem_cons, List.mem_singleton, List.not_mem_nil, or_false, exists_eq_or_imp,
      exists_eq_left, Contains_iff, h', not_true_eq_false, false_or]
  · have h' : ¬ "-all".data <:+: (ToLower lowerTable r).data := fun hc => h ((Contains_iff _ _).mpr hc)
    simp [h, h']

/-- C6. The record `v=spf1 a:mail-all.example.com` has no `all` mechanism and its lower-cased
text does not end with `-all`, yet `analyzeSPF` returns `false` for it: the check tests for the
substring `-all` anywhere (here inside the host name), not for the suffix its comment names. -/
theorem analyzeSPF_not_suffix_not_flagged (lowerTable : Char → Char) :
    HasSuffix (ToLower lowerTable "v=spf1 a:mail-all.example.com") "-all" = false ∧
    ¬ "-all".data <:+ (ToLower lowerTable "v=spf1 a:mail-all.example.com").data ∧
    analyzeSPF lowerTable "v=spf1 a:mail-all.example.com" = false := by
  refine ⟨rfl, ?_, rfl⟩
  have h : HasSuffix (ToLower lowerTable "v=spf1 a:mail-all.example.com") "-all" = false := rfl
  intro hs
  have : HasSuffix (ToLower lowerTable "v=spf1 a:mail-all.example.com") "-all" = true :=
    List.isSuffixOf_iff_suffix.mpr hs
  rw [h] at this
  exact Bool.false_ne_true this

/-! ## Record analyzer: DMARC -/

/-- C3. `analyzeDMARC` reports a record as vulnerable exactly when its lower-cased text
contains `p=none`, or contains neither `p=quarantine` nor `p=reject`, or contains `pct=`
together with `pct=0` or `pct=1`; `v=DMARC1; p=quarantine` is not vulnerable and
`v=DMARC1; p=none; rua=mailto:x@example.com` is. -/
theorem analyzeDMARC_spec (lowerTable : Char → Char) :
    (∀ r : String,
      analyzeDMARC lowerTable r = true ↔
        ("p=none".data <:+: (ToLower lowerTable r).data ∨
          (¬ "p=quarantine".data <:+: (ToLower lowerTable r).data ∧
            ¬ "p=reject".data <:+: (ToLower lowerTable r).data) ∨
          ("pct=".data <:+: (ToLower lowerTable r).data ∧
            ("pct=0".data <:+: (ToLower lowerTable r).data ∨
              "pct=1".data <:+: (ToLower lowerTable r).data)))) ∧
    analyzeDMARC lowerTable "v=DMARC1; p=quarantine" = false ∧
    analyzeDMARC lowerTable "v=DMARC1; p=none; rua=mailto:x@example.com" = true := by
  refine ⟨fun r => ?_, rfl, rfl⟩
  rw [← Contains_iff _ "p=none", ← Contains_iff _ "p=quarantine", ← Contains_iff _ "p=reject",
    ← Contains_iff _ "pct=", ← Contains_iff _ "pct=0", ← Contains_iff _ "pct=1"]
  show (if Contains (ToLower lowerTable r) "p=none" then true
    else if !Contains (ToLower lowerTable r) "p=quarantine" &&
      !Contains (ToLower lowerTable r) "p=reject" then true
    else if Contains (ToLower lowerTable r) "pct=" then
      if Contains (ToLower lowerTable r) "pct=0" || Contains (ToLower lowerTable r) "pct=1"
      then true else false
    else false) = true ↔ _
  generalize Contains (ToLower lowerTable r) "p=none" = pNone
  generalize Contains (ToLower lowerTable r) "p=quarantine" = quarantine
  generalize Contains (ToLower lowerTable r) "p=reject" = reject
  generalize Contains (ToLower lowerTable r) "pct=" = pct
  generalize Contains (ToLower lowerTable r) "pct=0" = pct0
  generalize Contains (ToLower lowerTable r) "pct=1" = pct1
  cases pNone <;> cases quarantine <;> cases reject <;> cases pct <;> cases pct0 <;>
    cases pct1 <;> simp

/-- C4. On `v=DMARC1; p=reject; pct=100` the code returns `true` (vulnerable): the record
contains `pct=` and the substring `pct=1`, the first five characters of `pct=100`. -/
theorem analyzeDMARC_pct100_flagged (lowerTable : Char → Char) :
    analyzeDMARC lowerTable "v=DMARC1; p=reject; pct=100" = true ∧
    Contains (ToLower lowerTable "v=DMARC1; p=reject; pct=100") "pct=1" = true ∧
    analyzeDMARC lowerTable "v=DMARC1; p=reject" = false :=
  ⟨rfl, rfl, rfl⟩

/-! ## Domain scanner -/

theorem scanDomain_fields (lowerTable : Char → Char) (lookupTXT : Resolver) (domain : String) :
    scanDomain lowerTable lookupTXT domain =
      { Domain := TrimSpace domain,
        SPF := (checkSPF lowerTable lookupTXT (TrimSpace domain)).1,
        SPFVuln := (checkSPF lowerTable lookupTXT (TrimSpace domain)).2,
        DMARC := (checkDMARC lowerTable lookupTXT (TrimSpace domain)).1,
        DMARCVuln := (checkDMARC lowerTable lookupTXT (TrimSpace domain)).2 } :=
  rfl

/-- C1. With a resolver whose every lookup fails, `scanDomain` on `example.com` returns an
empty SPF record with `SPFVuln = false`, while the DMARC half of the same result, which took the
same kind of failure, has `DMARCVuln = true`; an answer without any `v=spf1` entry gives
`SPFVuln = true`. -/
theorem scanDomain_spf_lookup_error (lowerTable : Char → Char) :
    (scanDomain lowerTable (fun _ => .error "no such host") "example.com").SPF = "" ∧
    (scanDomain lowerTable (fun _ => .error "no such host") "example.com").SPFVuln = false ∧
    (scanDomain lowerTable (fun _ => .error "no such host") "example.com").DMARC = "" ∧
    (scanDomain lowerTable (fun _ => .error "no such host") "example.com").DMARCVuln = true ∧
    (scanDomain lowerTable (fun _ => .ok ["google-site-verification=abc"]) "example.com").SPF
      = "" ∧
    (scanDomain lowerTable (fun _ => .ok ["google-site-verification=abc"]) "example.com").SPFVuln
      = true :=
  ⟨rfl, rfl, rfl, rfl, rfl, rfl⟩

/-- C5. Whenever the TXT lookup that `scanDomain` issues for the DMARC name (`_dmarc.` followed
by the trimmed domain) fails, or succeeds with no entry beginning with `v=DMARC1`, the result
has `DMARC = ""` and `DMARCVuln = true`. -/
theorem scanDomain_dmarc_absent (lowerTable : Char → Char) (lookupTXT : Resolver)
    (domain : String)
    (h : (∃ err, lookupTXT ("_dmarc." ++ TrimSpace domain) = .error err) ∨
      (∃ txtRecords, lookupTXT ("_dmarc." ++ TrimSpace domain) = .ok txtRecords ∧
        ∀ e ∈ txtRecords, HasPrefix e "v=DMARC1" = false)) :
    (scanDomain lowerTable lookupTXT domain).DMARC = "" ∧
    (scanDomain lowerTable lookupTXT domain).DMARCVuln = true := by
  rw [scanDomain_fields]
  rcases h with ⟨err, herr⟩ | ⟨txtRecords, hok, hnone⟩
  · simp [checkDMARC, herr]
  · simp [checkDMARC, hok, dmarcLoop_absent lowerTable txtRecords hnone]

theorem scanDomain_dmarc_absent_witness :
    (scanDomain id exampleResolver "b.com").DMARC = "" ∧
    (scanDomain id exampleResolver "b.com").DMARCVuln = true ∧
    (scanDomain id (fun _ => .ok ["v=spf1 -all", "v=dmarc1; p=reject"]) " b.com ").DMARC = "" ∧
    (scanDomain id (fun _ => .ok ["v=spf1 -all", "v=dmarc1; p=reject"]) " b.com ").DMARCVuln
      = true :=
  ⟨(scanDomain_dmarc_absent id exampleResolver "b.com"
      (Or.inl ⟨"no such host", rfl⟩)).1,
    (scanDomain_dmarc_absent id exampleResolver "b.com"
      (Or.inl ⟨"no such host", rfl⟩)).2,
    (scanDomain_dmarc_absent id (fun _ => .ok ["v=spf1 -all", "v=dmarc1; p=reject"]) " b.com "
      (Or.inr ⟨["v=spf1 -all", "v=dmarc1; p=reject"], rfl, by decide⟩)).1,
    (scanDomain_dmarc_absent id (fun _ => .ok ["v=spf1 -all", "v=dmarc1; p=reject"]) " b.com "
      (Or.inr ⟨["v=spf1 -all", "v=dmarc1; p=reject"], rfl, by decide⟩)).2⟩

/-! ## Lookup client -/

/-- C7. When the TXT answer for the domain contains an entry beginning with `v=spf1`, the answer
splits as the entries before the first such entry (none of which has the prefix), that entry,
and the rest, and `checkSPF` returns that entry unmodified together with `analyzeSPF` of it;
an answer whose earlier entry starts with `V=SPF1` and whose later entry is a second SPF record
is resolved to the first lower-case match. -/
theorem checkSPF_first_match (lowerTable : Char → Char) (lookupTXT : Resolver)
    (domain : String) (txtRecords : List String)
    (hok : lookupTXT domain = .ok txtRecords)
    (hex : ∃ e ∈ txtRecords, HasPrefix e "v=spf1" = true) :
    (∃ before entry after, txtRecords = before ++ entry :: after ∧
      (∀ e ∈ before, HasPrefix e "v=spf1" = false) ∧ HasPrefix entry "v=spf1" = true ∧
      checkSPF lowerTable lookupTXT domain = (entry, analyzeSPF lowerTable entry) ∧
      ∀ (otherLookup : Resolver) (before2 after2 : List String),
        otherLookup domain = .ok (before2 ++ entry :: after2) →
        (∀ e ∈ before2, HasPrefix e "v=spf1" = false) →
        checkSPF lowerTable otherLookup domain = checkSPF lowerTable lookupTXT domain) ∧
    checkSPF lowerTable (fun _ => .ok ["V=SPF1 +all", "v=spf1 mx -all", "v=spf1 +all"]) domain
      = ("v=spf1 mx -all", false) := by
  refine ⟨?_, rfl⟩
  obtain ⟨before, entry, after, hsplit, hbefore, hentry⟩ :=
    first_match_split (fun e => HasPrefix e "v=spf1") txtRecords hex
  have hres : checkSPF lowerTable lookupTXT domain = (entry, analyzeSPF lowerTable entry) := by
    simp only [checkSPF, hok, hsplit]
    rw [spfLoop_skip lowerTable before (entry :: after) hbefore]
    simp [spfLoop, hentry]
  refine ⟨before, entry, after, hsplit, hbefore, hentry, hres, ?_⟩
  intro otherLookup before2 after2 hok2 hbefore2
  rw [hres]
  simp only [checkSPF, hok2]
  rw [spfLoop_skip lowerTable before2 (entry :: after2) hbefore2]
  simp [spfLoop, hentry]

theorem checkSPF_first_match_witness :
    (∃ before entry after,
      ["google-site-verification=abc", "v=spf1 mx -all"] = before ++ entry :: after ∧
      (∀ e ∈ before, HasPrefix e "v=spf1" = false) ∧ HasPrefix entry "v=spf1" = true ∧
      checkSPF id exampleResolver "b.com" = (entry, analyzeSPF id entry) ∧
      ∀ (otherLookup : Resolver) (before2 after2 : List String),
        otherLookup "b.com" = .ok (before2 ++ entry :: after2) →
        (∀ e ∈ before2, HasPrefix e "v=spf1" = false) →
        checkSPF id otherLookup "b.com" = checkSPF id exampleResolver "b.com") ∧
    checkSPF id (fun _ => .ok ["V=SPF1 +all", "v=spf1 mx -all", "v=spf1 +all"]) "b.com"
      = ("v=spf1 mx -all", false) :=
  checkSPF_first_match id exampleResolver "b.com"
    ["google-site-verification=abc", "v=spf1 mx -all"] rfl
    ⟨"v=spf1 mx -all", by simp, by decide⟩

/-! ## Reporter and ledger -/

theorem join_cons (a : String) (l : List String) : String.join (a :: l) = a ++ String.join l := by
  rw [String.join_eq, String.join_eq]
  apply String.ext
  simp [String.data_append]

theorem printResult_vulnFile (r : DNSRecord) (w : World) (c : String)
    (h : w.vulnFile = some { content := c, closed := false }) :
    (printResult r w).vulnFile =
      some { content := if r.SPFVuln || r.DMARCVuln then c ++ (r.Domain ++ "\n") else c,
             closed := false } := by
  unfold printResult
  by_cases hv : (r.SPFVuln || r.DMARCVuln) = true
  · simp only [hv, if_true]
    by_cases h1 : (r.SPF == "") = true <;> by_cases h2 : (r.DMARC == "") = true <;>
      simp [h1, h2, saveVulnerableDomain, World.printf, h]
  · simp only [hv, if_false]
    by_cases h1 : (r.SPF == "") = true <;> by_cases h2 : (r.DMARC == "") = true <;>
      simp [h1, h2, World.printf, h]

theorem report_vulnFile (results : List DNSRecord) (w : World) (c : String)
    (h : w.vulnFile = some { content := c, closed := false }) :
    (report results w).vulnFile =
      some { content := c ++ String.join
               ((results.filter (fun r => r.SPFVuln || r.DMARCVuln)).map
                 (fun r => r.Domain ++ "\n")),
             closed := false } := by
  induction results generalizing w c with
  | nil => simpa [report, String.join] using h
  | cons r rs ih =>
    have hstep := printResult_vulnFile r w c h
    have hrest := ih (printResult r w) _ hstep
    have hfold : report (r :: rs) w = report rs (printResult r w) := rfl
    rw [hfold, hrest]
    by_cases hv : (r.SPFVuln || r.DMARCVuln) = true
    · simp [hv, List.filter_cons, join_cons, String.append_assoc]
    · simp [hv, List.filter_cons]

/-- C8. Starting from an empty, open ledger, after the reporter has processed any sequence of
results the ledger is still open and holds exactly the concatenation, in processing order, of
`Domain` followed by a newline for the results with `SPFVuln || DMARCVuln`; for the mocked
`a.com` (soft-fail SPF, rejecting DMARC) and `b.com` (hard-fail SPF, no DMARC) the ledger holds
the two lines `a.com` and `b.com`. -/
theorem report_ledger (lowerTable : Char → Char) :
    (∀ results : List DNSRecord,
      (report results World.fresh).vulnFile =
        some { content := String.join
                 ((results.filter (fun r => r.SPFVuln || r.DMARCVuln)).map
                   (fun r => r.Domain ++ "\n")),
               closed := false }) ∧
    (scanDomain lowerTable exampleResolver "a.com").SPFVuln = true ∧
    (scanDomain lowerTable exampleResolver "a.com").DMARCVuln = false ∧
    (scanDomain lowerTable exampleResolver "b.com").SPFVuln = false ∧
    (scanDomain lowerTable exampleResolver "b.com").DMARC = "" ∧
    (report [scanDomain lowerTable exampleResolver "a.com",
        scanDomain lowerTable exampleResolver "b.com"] World.fresh).vulnFile =
      some { content := "a.com\nb.com\n", closed := false } := by
  refine ⟨fun results => ?_, rfl, rfl, rfl, rfl, rfl⟩
  have h := report_vulnFile results World.fresh "" rfl
  rw [h]
  simp

/-! ## Trimming -/

theorem dropWhile_head_not {α : Type} (p : α → Bool) (l : List α) (a : α) (t : List α)
    (h : l.dropWhile p = a :: t) : p a = false := by
  induction l with
  | nil => simp at h
  | cons b l ih =>
    by_cases hb : p b = true
    · rw [List.dropWhile_cons_of_pos hb] at h
      exact ih h
    · rw [List.dropWhile_cons_of_neg hb] at h
      simp only [List.cons.injEq] at h
      rw [← h.1]
      simpa using hb

theorem dropWhile_rdropWhile_dropWhile {α : Type} (p : α → Bool) (l : List α) :
    ((l.dropWhile p).rdropWhile p).dropWhile p = (l.dropWhile p).rdropWhile p := by
  obtain ⟨t, ht⟩ : (l.dropWhile p).rdropWhile p <+: l.dropWhile p :=
    List.rdropWhile_prefix p (l.dropWhile p)
  cases hk : (l.dropWhile p).rdropWhile p with
  | nil => rfl
  | cons a k =>
    rw [hk] at ht
    have ha : p a = false := dropWhile_head_not p l a (k ++ t) (by simpa using ht.symm)
    exact List.dropWhile_cons_of_neg (by simp [ha])

theorem TrimSpace_idem (s : String) : TrimSpace (TrimSpace s) = TrimSpace s := by
  unfold TrimSpace
  simp only [dropWhile_rdropWhile_dropWhile, List.rdropWhile_idempotent]

theorem TrimSpace_blank (s : String) (h : ∀ c ∈ s.data, isSpace c = true) :
    TrimSpace s = "" := by
  unfold TrimSpace
  have : s.data.dropWhile isSpace = [] := List.dropWhile_eq_nil_iff.mpr h
  rw [this]
  rfl

theorem dropWhile_append_of_exists {α : Type} (p : α → Bool) (l m : List α)
    (h : ∃ x ∈ l, p x = false) : (l ++ m).dropWhile p = l.dropWhile p ++ m := by
  induction l with
  | nil => simp at h
  | cons a l ih =>
    by_cases ha : p a = true
    · have hl : ∃ x ∈ l, p x = false := by
        obtain ⟨x, hx, hpx⟩ := h
        rcases List.mem_cons.mp hx with rfl | hx
        · rw [ha] at hpx
          exact absurd hpx (by simp)
        · exact ⟨x, hx, hpx⟩
      simp [List.dropWhile_cons, ha, ih hl]
    · simp [List.dropWhile_cons, ha]

theorem trim_concat_space (l : List Char) (c : Char) (hc : isSpace c = true) :
    ((l ++ [c]).dropWhile isSpace).rdropWhile isSpace =
      (l.dropWhile isSpace).rdropWhile isSpace := by
  by_cases hall : ∀ x ∈ l, isSpace x = true
  · have h1 : (l ++ [c]).dropWhile isSpace = [] := by
      rw [List.dropWhile_eq_nil_iff]
      intro x hx
      rcases List.mem_append.mp hx with hx | hx
      · exact hall x hx
      · rw [List.mem_singleton.mp hx]
        exact hc
    have h2 : l.dropWhile isSpace = [] := List.dropWhile_eq_nil_iff.mpr hall
    rw [h1, h2]
  · have hex : ∃ x ∈ l, isSpace x = false := by
      by_contra hne
      apply hall
      intro x hx
      by_contra hx2
      exact hne ⟨x, hx, by simpa using hx2⟩
    rw [dropWhile_append_of_exists isSpace l [c] hex]
    exact List.rdropWhile_concat_pos isSpace _ c hc

theorem TrimSpace_dropCR (raw : String) : TrimSpace (dropCR raw) = TrimSpace raw := by
  unfold dropCR
  rcases List.eq_nil_or_concat raw.data with hnil | ⟨l, c, hl⟩
  · simp [hnil]
  · rw [List.concat_eq_append] at hl
    have hlast : raw.data.getLast? = some c := by simp [hl]
    rw [hlast]
    by_cases hc : c = '\r'
    · subst hc
      simp only [if_true]
      unfold TrimSpace
      rw [hl, List.dropLast_concat]
      congr 1
      exact (trim_concat_space l '\r' (by decide)).symm
    · simp [hc]

/-! ## Scanner -/

theorem scannerScan_none (input : List String) (h : scannerScan input = none) :
    readable input = [] := by
  cases input with
  | nil => rfl
  | cons raw rest =>
    by_cases hfit : raw.utf8ByteSize < maxScanTokenSize
    · simp [scannerScan, hfit] at h
    · simp [readable, List.takeWhile_cons, hfit]

theorem scannerScan_some (input : List String) (text : String) (rest : List String)
    (h : scannerScan input = some (text, rest)) :
    ∃ raw, input = raw :: rest ∧ raw.utf8ByteSize < maxScanTokenSize ∧ text = dropCR raw := by
  cases input with
  | nil => simp [scannerScan] at h
  | cons raw tail =>
    by_cases hfit : raw.utf8ByteSize < maxScanTokenSize
    · simp only [scannerScan, hfit, if_true, Option.some.injEq, Prod.mk.injEq] at h
      exact ⟨raw, by rw [h.2], hfit, h.1.symm⟩
    · simp [scannerScan, hfit] at h

theorem readable_cons_fit (raw : String) (rest : List String)
    (hfit : raw.utf8ByteSize < maxScanTokenSize) :
    readable (raw :: rest) = raw :: readable rest := by
  simp [readable, List.takeWhile_cons, hfit]

theorem readable_of_short (lines : List String)
    (h : ∀ line ∈ lines, line.utf8ByteSize < maxScanTokenSize) : readable lines = lines := by
  unfold readable
  rw [List.takeWhile_eq_self_iff]
  intro x hx
  simpa using h x hx

theorem specIntake_cons (line : String) (rest : List String) :
    specIntake (line :: rest) =
      if TrimSpace line != "" then TrimSpace line :: specIntake rest else specIntake rest := by
  by_cases h : (TrimSpace line != "") = true
  · simp [specIntake, h]
  · simp [specIntake, h]

theorem specIntake_mem (lines : List String) (d : String) (h : d ∈ specIntake lines) :
    d ≠ "" ∧ TrimSpace d = d := by
  unfold specIntake at h
  rw [List.mem_filter, List.mem_map] at h
  obtain ⟨⟨line, _, rfl⟩, hne⟩ := h
  exact ⟨by simpa using hne, TrimSpace_idem line⟩

/-! ## Pipeline invariants -/

theorem run_invariant (lowerTable : Char → Char) (lookupTXT : Resolver)
    (I : Pipeline → Prop)
    (hstep : ∀ t p q, step lowerTable lookupTXT t p = some q → I p → I q)
    (schedule : List Thread) (p q : Pipeline)
    (h : run lowerTable lookupTXT schedule p = some q) (hp : I p) : I q := by
  induction schedule generalizing p with
  | nil =>
    simp only [run, Option.some.injEq] at h
    exact h ▸ hp
  | cons t ts ih =>
    simp only [run] at h
    split at h
    · cases h
    next r hr => exact ih r h (hstep t p r hr hp)

theorem stepMain_frame (p q : Pipeline) (h : stepMain p = some q) :
    q.results = p.results ∧ q.workers = p.workers ∧ q.received = p.received ∧
      p.domains <+: q.domains := by
  unfold stepMain at h
  split at h
  · split at h
    · cases h
      exact ⟨rfl, rfl, rfl, List.prefix_refl _⟩
    next text rest _ =>
      simp only at h
      by_cases hd : (TrimSpace text != "") = true
      · simp only [hd, if_true] at h
        by_cases hroom : p.domains.length - p.received < chanCap
        · simp only [hroom, if_true] at h
          cases h
          exact ⟨rfl, rfl, rfl, List.prefix_append _ _⟩
        · simp [hroom] at h
      · simp only [hd] at h
        cases h
        exact ⟨rfl, rfl, rfl, List.prefix_refl _⟩
  · cases h
    exact ⟨rfl, rfl, rfl, List.prefix_refl _⟩
  · split at h
    · cases h
      exact ⟨rfl, rfl, rfl, List.prefix_refl _⟩
    · cases h
  · cases h
    exact ⟨rfl, rfl, rfl, List.prefix_refl _⟩
  · cases h
    exact ⟨rfl, rfl, rfl, List.prefix_refl _⟩
  · cases h

theorem stepMain_intake (lines : List String) (p q : Pipeline) (h : stepMain p = some q)
    (hinv : p.domains ++ specIntake (readable p.input) = specIntake (readable lines) ∧
      (p.pc ≠ .readLoop → readable p.input = []) ∧ p.input <:+ lines) :
    q.domains ++ specIntake (readable q.input) = specIntake (readable lines) ∧
      (q.pc ≠ .readLoop → readable q.input = []) ∧ q.input <:+ lines := by
  obtain ⟨hsent, hdone, hsuf⟩ := hinv
  unfold stepMain at h
  split at h
  next hpc =>
    split at h
    next hscan =>
      cases h
      exact ⟨hsent, fun _ => scannerScan_none p.input hscan, hsuf⟩
    next text rest hscan =>
      obtain ⟨raw, hin, hfit, htext⟩ := scannerScan_some p.input text rest hscan
      have hsuf2 : rest <:+ lines := by
        rw [hin] at hsuf
        exact List.IsSuffix.trans (List.suffix_cons raw rest) hsuf
      rw [hin, readable_cons_fit raw rest hfit, specIntake_cons] at hsent
      subst htext
      simp only [TrimSpace_dropCR] at h
      by_cases hd : (TrimSpace raw != "") = true
      · simp only [hd, if_true] at h hsent
        by_cases hroom : p.domains.length - p.received < chanCap
        · simp only [hroom, if_true] at h
          cases h
          refine ⟨?_, fun hne => absurd hpc hne, hsuf2⟩
          simpa using hsent
        · simp [hroom] at h
      · simp only [hd] at h hsent
        cases h
        exact ⟨by simpa using hsent, fun hne => absurd hpc hne, hsuf2⟩
  next hpc =>
    cases h
    exact ⟨hsent, fun _ => hdone (by simp [hpc]), hsuf⟩
  next hpc =>
    split at h
    · cases h
      exact ⟨hsent, fun _ => hdone (by simp [hpc]), hsuf⟩
    · cases h
  next hpc =>
    cases h
    exact ⟨hsent, fun _ => hdone (by simp [hpc]), hsuf⟩
  next hpc =>
    cases h
    exact ⟨hsent, fun _ => hdone (by simp [hpc]), hsuf⟩
  next hpc => cases h

theorem stepWorker_cases (lowerTable : Char → Char) (lookupTXT : Resolver) (i : Nat)
    (p q : Pipeline) (h : stepWorker lowerTable lookupTXT i p = some q) :
    q.pc = p.pc ∧ q.input = p.input ∧ q.domains = p.domains ∧
      ((∃ d, p.domains.get? p.received = some d ∧ q.results = p.results ∧
          q.workers = p.workers.set i (.send (scanDomain lowerTable lookupTXT d))) ∨
        (q.results = p.results ∧ q.workers = p.workers.set i .done) ∨
        (∃ r, p.workers.get? i = some (.send r) ∧ q.results = p.results ++ [r] ∧
          q.workers = p.workers.set i .recv)) := by
  unfold stepWorker at h
  split at h
  · cases h
  · split at h
    next d hd =>
      cases h
      exact ⟨rfl, rfl, rfl, Or.inl ⟨d, hd, rfl, rfl⟩⟩
    · split at h
      · cases h
        exact ⟨rfl, rfl, rfl, Or.inr (Or.inl ⟨rfl, rfl⟩)⟩
      · cases h
  next r hr =>
    split at h
    · cases h
      exact ⟨rfl, rfl, rfl, Or.inr (Or.inr ⟨r, hr, rfl, rfl⟩)⟩
    · cases h
  · cases h

theorem stepReporter_frame (p q : Pipeline) (h : stepReporter p = some q) :
    q.pc = p.pc ∧ q.input = p.input ∧ q.domains = p.domains ∧ q.workers = p.workers ∧
      q.received = p.received ∧ (∀ r ∈ q.results, r ∈ p.results) := by
  unfold stepReporter at h
  split at h
  · cases h
  · split at h
    next r rest hres =>
      cases h
      refine ⟨rfl, rfl, rfl, rfl, rfl, fun x hx => ?_⟩
      rw [hres]
      exact List.mem_cons_of_mem r hx
    · split at h
      · cases h
        exact ⟨rfl, rfl, rfl, rfl, rfl, fun x hx => hx⟩
      · cases h

theorem step_intake (lowerTable : Char → Char) (lookupTXT : Resolver) (lines : List String)
    (t : Thread) (p q : Pipeline) (h : step lowerTable lookupTXT t p = some q)
    (hinv : p.domains ++ specIntake (readable p.input) = specIntake (readable lines) ∧
      (p.pc ≠ .readLoop → readable p.input = []) ∧ p.input <:+ lines) :
    q.domains ++ specIntake (readable q.input) = specIntake (readable lines) ∧
      (q.pc ≠ .readLoop → readable q.input = []) ∧ q.input <:+ lines := by
  cases t with
  | main => exact stepMain_intake lines p q h hinv
  | worker i =>
    obtain ⟨h1, h2, h3, _⟩ := stepWorker_cases lowerTable lookupTXT i p q h
    rw [h1, h2, h3]
    exact hinv
  | reporter =>
    obtain ⟨h1, h2, h3, _⟩ := stepReporter_frame p q h
    rw [h1, h2, h3]
    exact hinv

theorem step_flow (lowerTable : Char → Char) (lookupTXT : Resolver)
    (t : Thread) (p q : Pipeline) (h : step lowerTable lookupTXT t p = some q)
    (hinv : (∀ r ∈ p.results, ∃ d ∈ p.domains, r = scanDomain lowerTable lookupTXT d) ∧
      (∀ r, WorkerPc.send r ∈ p.workers →
        ∃ d ∈ p.domains, r = scanDomain lowerTable lookupTXT d)) :
    (∀ r ∈ q.results, ∃ d ∈ q.domains, r = scanDomain lowerTable lookupTXT d) ∧
      (∀ r, WorkerPc.send r ∈ q.workers →
        ∃ d ∈ q.domains, r = scanDomain lowerTable lookupTXT d) := by
  obtain ⟨hres, hwrk⟩ := hinv
  cases t with
  | main =>
    obtain ⟨h1, h2, _, hpre⟩ := stepMain_frame p q h
    rw [h1, h2]
    constructor
    · intro r hr
      obtain ⟨d, hd, hrd⟩ := hres r hr
      exact ⟨d, hpre.subset hd, hrd⟩
    · intro r hr
      obtain ⟨d, hd, hrd⟩ := hwrk r hr
      exact ⟨d, hpre.subset hd, hrd⟩
  | worker i =>
    obtain ⟨_, _, h3, hcase⟩ := stepWorker_cases lowerTable lookupTXT i p q h
    rw [h3]
    rcases hcase with ⟨d, hd, hr, hw⟩ | ⟨hr, hw⟩ | ⟨r0, hget, hr, hw⟩
    · rw [hr, hw]
      refine ⟨hres, fun r hmem => ?_⟩
      rcases List.mem_or_eq_of_mem_set hmem with hold | hnew
      · exact hwrk r hold
      · exact ⟨d, List.get?_mem hd, by simpa using hnew⟩
    · rw [hr, hw]
      refine ⟨hres, fun r hmem => ?_⟩
      rcases List.mem_or_eq_of_mem_set hmem with hold | hnew
      · exact hwrk r hold
      · cases hnew
    · rw [hr, hw]
      constructor
      · intro r hmem
        rcases List.mem_append.mp hmem with hold | hnew
        · exact hres r hold
        · rw [List.mem_singleton.mp hnew]
          exact hwrk r0 (List.get?_mem hget)
      · intro r hmem
        rcases List.mem_or_eq_of_mem_set hmem with hold | hnew
        · exact hwrk r hold
        · cases hnew
  | reporter =>
    obtain ⟨_, _, h3, h4, _, hsub⟩ := stepReporter_frame p q h
    rw [h3, h4]
    exact ⟨fun r hr => hres r (hsub r hr), hwrk⟩

theorem run_cons (lowerTable : Char → Char) (lookupTXT : Resolver) (t : Thread)
    (ts : List Thread) (p q : Pipeline) (h : step lowerTable lookupTXT t p = some q) :
    run lowerTable lookupTXT (t :: ts) p = run lowerTable lookupTXT ts q := by
  simp [run, h]

theorem leave_readLoop (lowerTable : Char → Char) (lookupTXT : Resolver)
    (input : List String) (p : Pipeline) (hin : p.input = input) (hpc : p.pc = .readLoop)
    (hrecv : p.received = p.domains.length) (hw : p.workers.get? 0 = some .recv)
    (hres : p.results = []) (hrep : p.reporterDone = false) :
    ∃ schedule q, run lowerTable lookupTXT schedule p = some q ∧ q.pc ≠ .readLoop := by
  induction input generalizing p with
  | nil =>
    refine ⟨[.main], { p with pc := .closeDomains }, ?_, by simp⟩
    simp [run, step, stepMain, hpc, hin, scannerScan]
  | cons raw rest ih =>
    by_cases hfit : raw.utf8ByteSize < maxScanTokenSize
    · by_cases hd : (TrimSpace (dropCR raw) != "") = true
      · have hlen : 0 < p.workers.length := by
          rcases hwl : p.workers with _ | ⟨a, l⟩
          · rw [hwl] at hw
            simp at hw
          · simp
        have h1 : step lowerTable lookupTXT .main p =
            some { p with input := rest, domains := p.domains ++ [TrimSpace (dropCR raw)] } := by
          simp [step, stepMain, hpc, hin, scannerScan, hfit, hd, hrecv, chanCap]
        have h2 : step lowerTable lookupTXT (.worker 0)
            { p with input := rest, domains := p.domains ++ [TrimSpace (dropCR raw)] } =
            some { p with input := rest, domains := p.domains ++ [TrimSpace (dropCR raw)],
                          received := p.received + 1,
                          workers := p.workers.set 0
                            (.send (scanDomain lowerTable lookupTXT (TrimSpace (dropCR raw)))) } := by
          have hw2 : p.workers[0]? = some .recv := by simpa using hw
          simp [step, stepWorker, hw2, hrecv]
        have h3 : step lowerTable lookupTXT (.worker 0)
            { p with input := rest, domains := p.domains ++ [TrimSpace (dropCR raw)],
                     received := p.received + 1,
                     workers := p.workers.set 0
                       (.send (scanDomain lowerTable lookupTXT (TrimSpace (dropCR raw)))) } =
            some { p with input := rest, domains := p.domains ++ [TrimSpace (dropCR raw)],
                          received := p.received + 1,
                          workers := p.workers.set 0 .recv,
                          results := [scanDomain lowerTable lookupTXT (TrimSpace (dropCR raw))] } := by
          simp [step, stepWorker, hlen, hres, chanCap]
        have h4 : step lowerTable lookupTXT .reporter
            { p with input := rest, domains := p.domains ++ [TrimSpace (dropCR raw)],
                     received := p.received + 1,
                     workers := p.workers.set 0 .recv,
                     results := [scanDomain lowerTable lookupTXT (TrimSpace (dropCR raw))] } =
            some { p with input := rest, domains := p.domains ++ [TrimSpace (dropCR raw)],
                          received := p.received + 1,
                          workers := p.workers.set 0 .recv,
                          results := [],
                          world := printResult
                            (scanDomain lowerTable lookupTXT (TrimSpace (dropCR raw))) p.world } := by
          simp [step, stepReporter, hrep]
        obtain ⟨schedule, q, hrun, hq⟩ := ih
          { p with input := rest, domains := p.domains ++ [TrimSpace (dropCR raw)],
                   received := p.received + 1,
                   workers := p.workers.set 0 .recv,
                   results := [],
                   world := printResult
                     (scanDomain lowerTable lookupTXT (TrimSpace (dropCR raw))) p.world }
          rfl hpc (by simp [hrecv]) (by simp [hlen]) rfl hrep
        refine ⟨.main :: .worker 0 :: .worker 0 :: .reporter :: schedule, q, ?_, hq⟩
        rw [run_cons _ _ _ _ _ _ h1, run_cons _ _ _ _ _ _ h2, run_cons _ _ _ _ _ _ h3,
          run_cons _ _ _ _ _ _ h4]
        exact hrun
      · have h1 : step lowerTable lookupTXT .main p = some { p with input := rest } := by
          simp [step, stepMain, hpc, hin, scannerScan, hfit, hd]
        obtain ⟨schedule, q, hrun, hq⟩ := ih { p with input := rest } rfl hpc hrecv hw hres hrep
        refine ⟨.main :: schedule, q, ?_, hq⟩
        rw [run_cons _ _ _ _ _ _ h1]
        exact hrun
    · refine ⟨[.main], { p with pc := .closeDomains }, ?_, by simp⟩
      simp [run, step, stepMain, hpc, hin, scannerScan, hfit]

theorem run_append (lowerTable : Char → Char) (lookupTXT : Resolver)
    (s1 s2 : List Thread) (p q : Pipeline) (h : run lowerTable lookupTXT s1 p = some q) :
    run lowerTable lookupTXT (s1 ++ s2) p = run lowerTable lookupTXT s2 q := by
  induction s1 generalizing p with
  | nil =>
    simp only [run, Option.some.injEq] at h
    rw [h]
    rfl
  | cons t ts ih =>
    simp only [run] at h
    split at h
    · cases h
    next r hr =>
      rw [List.cons_append, run_cons _ _ _ _ _ _ hr]
      exact ih r h

theorem step_alive (lowerTable : Char → Char) (lookupTXT : Resolver)
    (t : Thread) (p q : Pipeline) (h : step lowerTable lookupTXT t p = some q)
    (hinv : 0 < p.workers.length ∧ p.received ≤ p.domains.length ∧
      (p.domainsClosed = true → p.pc ≠ .readLoop) ∧
      (p.resultsClosed = true → p.pc ≠ .readLoop) ∧
      (p.reporterDone = true → p.resultsClosed = true) ∧
      (WorkerPc.done ∈ p.workers → p.domainsClosed = true)) :
    0 < q.workers.length ∧ q.received ≤ q.domains.length ∧
      (q.domainsClosed = true → q.pc ≠ .readLoop) ∧
      (q.resultsClosed = true → q.pc ≠ .readLoop) ∧
      (q.reporterDone = true → q.resultsClosed = true) ∧
      (WorkerPc.done ∈ q.workers → q.domainsClosed = true) := by
  obtain ⟨h1, h2, h3, h4, h5, h6⟩ := hinv
  cases t with
  | main =>
    simp only [step] at h
    unfold stepMain at h
    split at h
    next hpc =>
      split at h
      · cases h
        exact ⟨h1, h2, fun _ => by simp, fun _ => by simp, h5, h6⟩
      next text rest _ =>
        simp only at h
        by_cases hd : (TrimSpace text != "") = true
        · simp only [hd, if_true] at h
          by_cases hroom : p.domains.length - p.received < chanCap
          · simp only [hroom, if_true] at h
            cases h
            refine ⟨h1, ?_, h3, h4, h5, h6⟩
            simp only [List.length_append, List.length_singleton]
            omega
          · simp [hroom] at h
        · simp only [hd] at h
          cases h
          exact ⟨h1, h2, h3, h4, h5, h6⟩
    next hpc =>
      cases h
      exact ⟨h1, h2, fun _ => by simp, fun _ => by simp, h5, fun _ => rfl⟩
    next hpc =>
      split at h
      · cases h
        exact ⟨h1, h2, fun _ => by simp, fun _ => by simp, h5, h6⟩
      · cases h
    next hpc =>
      cases h
      exact ⟨h1, h2, fun _ => by simp, fun _ => by simp, fun _ => rfl, h6⟩
    next hpc =>
      cases h
      exact ⟨h1, h2, fun _ => by simp, fun _ => by simp, h5, h6⟩
    next hpc => cases h
  | worker i =>
    simp only [step] at h
    unfold stepWorker at h
    split at h
    · cases h
    · split at h
      next d hd =>
        cases h
        have hlt : p.received < p.domains.length := by
          rcases List.get?_eq_some.mp hd with ⟨hlt, _⟩
          exact hlt
        refine ⟨by simpa using h1, hlt, h3, h4, h5, fun hmem => ?_⟩
        rcases List.mem_or_eq_of_mem_set hmem with hold | hnew
        · exact h6 hold
        · cases hnew
      · split at h
        next hclosed =>
          cases h
          exact ⟨by simpa using h1, h2, h3, h4, h5, fun _ => hclosed⟩
        · cases h
    · split at h
      · cases h
        refine ⟨by simpa using h1, h2, h3, h4, h5, fun hmem => ?_⟩
        rcases List.mem_or_eq_of_mem_set hmem with hold | hnew
        · exact h6 hold
        · cases hnew
      · cases h
    · cases h
  | reporter =>
    simp only [step] at h
    unfold stepReporter at h
    split at h
    · cases h
    · split at h
      · cases h
        exact ⟨h1, h2, h3, h4, h5, h6⟩
      · split at h
        next hclosed =>
          cases h
          exact ⟨h1, h2, h3, h4, fun _ => hclosed, h6⟩
        · cases h

theorem drain_results (lowerTable : Char → Char) (lookupTXT : Resolver)
    (results : List DNSRecord) (p : Pipeline) (hres : p.results = results)
    (hrep : p.reporterDone = false) :
    ∃ schedule q, run lowerTable lookupTXT schedule p = some q ∧ q.results = [] ∧
      q.pc = p.pc ∧ q.input = p.input ∧ q.domains = p.domains ∧ q.received = p.received ∧
      q.workers = p.workers ∧ q.reporterDone = false := by
  induction results generalizing p with
  | nil => exact ⟨[], p, rfl, hres, rfl, rfl, rfl, rfl, rfl, hrep⟩
  | cons r rest ih =>
    have h1 : step lowerTable lookupTXT .reporter p =
        some { p with results := rest, world := printResult r p.world } := by
      simp [step, stepReporter, hrep, hres]
    obtain ⟨schedule, q, hrun, hq⟩ :=
      ih { p with results := rest, world := printResult r p.world } rfl hrep
    exact ⟨.reporter :: schedule, q, by rw [run_cons _ _ _ _ _ _ h1]; exact hrun, hq⟩

theorem drain_domains (lowerTable : Char → Char) (lookupTXT : Resolver)
    (n : Nat) (p : Pipeline) (hn : p.domains.length - p.received = n)
    (hle : p.received ≤ p.domains.length) (hw : p.workers.get? 0 = some .recv)
    (hres : p.results = []) (hrep : p.reporterDone = false) :
    ∃ schedule q, run lowerTable lookupTXT schedule p = some q ∧ q.results = [] ∧
      q.pc = p.pc ∧ q.input = p.input ∧ q.domains = p.domains ∧
      q.received = q.domains.length ∧ q.workers.get? 0 = some .recv ∧
      q.reporterDone = false := by
  induction n generalizing p with
  | zero => exact ⟨[], p, rfl, hres, rfl, rfl, rfl, by omega, hw, hrep⟩
  | succ n ih =>
    have hlt : p.received < p.domains.length := by omega
    have hw2 : p.workers[0]? = some .recv := by simpa using hw
    have hlen : 0 < p.workers.length := by
      rcases hwl : p.workers with _ | ⟨a, l⟩
      · rw [hwl] at hw
        simp at hw
      · simp
    have hd : p.domains[p.received]? = some (p.domains.get ⟨p.received, hlt⟩) := by
      simp [List.getElem?_eq_getElem hlt]
    have h1 : step lowerTable lookupTXT (.worker 0) p =
        some { p with received := p.received + 1,
                      workers := p.workers.set 0 (.send (scanDomain lowerTable lookupTXT
                        (p.domains.get ⟨p.received, hlt⟩))) } := by
      simp [step, stepWorker, hw2, hd]
    have h2 : step lowerTable lookupTXT (.worker 0)
        { p with received := p.received + 1,
                 workers := p.workers.set 0 (.send (scanDomain lowerTable lookupTXT
                   (p.domains.get ⟨p.received, hlt⟩))) } =
        some { p with received := p.received + 1,
                      workers := p.workers.set 0 .recv,
                      results := [scanDomain lowerTable lookupTXT
                        (p.domains.get ⟨p.received, hlt⟩)] } := by
      simp [step, stepWorker, hlen, hres, chanCap]
    have h3 : step lowerTable lookupTXT .reporter
        { p with received := p.received + 1,
                 workers := p.workers.set 0 .recv,
                 results := [scanDomain lowerTable lookupTXT
                   (p.domains.get ⟨p.received, hlt⟩)] } =
        some { p with received := p.received + 1,
                      workers := p.workers.set 0 .recv,
                      results := [],
                      world := printResult (scanDomain lowerTable lookupTXT
                        (p.domains.get ⟨p.received, hlt⟩)) p.world } := by
      simp [step, stepReporter, hrep]
    obtain ⟨schedule, q, hrun, hq1, hq2, hq3, hq4, hq5, hq6, hq7⟩ := ih
      { p with received := p.received + 1,
               workers := p.workers.set 0 .recv,
               results := [],
               world := printResult (scanDomain lowerTable lookupTXT
                 (p.domains.get ⟨p.received, hlt⟩)) p.world }
      (by simp only; omega) (by simp only; omega) (by simp [hlen]) rfl hrep
    refine ⟨.worker 0 :: .worker 0 :: .reporter :: schedule, q, ?_, hq1, hq2, hq3, hq4, hq5,
      hq6, hq7⟩
    rw [run_cons _ _ _ _ _ _ h1, run_cons _ _ _ _ _ _ h2, run_cons _ _ _ _ _ _ h3]
    exact hrun

theorem settle_worker (lowerTable : Char → Char) (lookupTXT : Resolver) (p : Pipeline)
    (r : DNSRecord) (hw : p.workers.get? 0 = some (.send r)) (hres : p.results = [])
    (hrep : p.reporterDone = false) :
    ∃ schedule q, run lowerTable lookupTXT schedule p = some q ∧ q.results = [] ∧
      q.pc = p.pc ∧ q.input = p.input ∧ q.domains = p.domains ∧ q.received = p.received ∧
      q.workers.get? 0 = some .recv ∧ q.reporterDone = false := by
  have hw2 : p.workers[0]? = some (.send r) := by simpa using hw
  have hlen : 0 < p.workers.length := by
    rcases hwl : p.workers with _ | ⟨a, l⟩
    · rw [hwl] at hw
      simp at hw
    · simp
  have h1 : step lowerTable lookupTXT (.worker 0) p =
      some { p with results := [r], workers := p.workers.set 0 .recv } := by
    simp [step, stepWorker, hw2, hres, chanCap]
  have h2 : step lowerTable lookupTXT .reporter
      { p with results := [r], workers := p.workers.set 0 .recv } =
      some { p with results := [], workers := p.workers.set 0 .recv,
                    world := printResult r p.world } := by
    simp [step, stepReporter, hrep]
  refine ⟨[.worker 0, .reporter],
    { p with results := [], workers := p.workers.set 0 .recv, world := printResult r p.world },
    ?_, rfl, rfl, rfl, rfl, rfl, by simp [hlen], hrep⟩
  rw [run_cons _ _ _ _ _ _ h1, run_cons _ _ _ _ _ _ h2]
  rfl

theorem can_leave_readLoop (lowerTable : Char → Char) (lookupTXT : Resolver) (p : Pipeline)
    (hinv : 0 < p.workers.length ∧ p.received ≤ p.domains.length ∧
      (p.domainsClosed = true → p.pc ≠ .readLoop) ∧
      (p.resultsClosed = true → p.pc ≠ .readLoop) ∧
      (p.reporterDone = true → p.resultsClosed = true) ∧
      (WorkerPc.done ∈ p.workers → p.domainsClosed = true)) :
    ∃ schedule q, run lowerTable lookupTXT schedule p = some q ∧ q.pc ≠ .readLoop := by
  obtain ⟨h1, h2, h3, h4, h5, h6⟩ := hinv
  by_cases hpc : p.pc = .readLoop
  · have hrep : p.reporterDone = false := by
      cases hr : p.reporterDone with
      | false => rfl
      | true => exact absurd hpc (h4 (h5 hr))
    obtain ⟨s1, q1, hrun1, hres1, hpc1, _, hdom1, hrecv1, hwrk1, hrep1⟩ :=
      drain_results lowerTable lookupTXT p.results p rfl hrep
    obtain ⟨w, hw⟩ : ∃ w, q1.workers.get? 0 = some w := by
      rw [hwrk1]
      rcases hwl : p.workers with _ | ⟨a, l⟩
      · rw [hwl] at h1
        simp at h1
      · exact ⟨a, rfl⟩
    have hsettled : ∃ s2 q2, run lowerTable lookupTXT s2 q1 = some q2 ∧ q2.results = [] ∧
        q2.pc = q1.pc ∧ q2.domains = q1.domains ∧ q2.received = q1.received ∧
        q2.workers.get? 0 = some .recv ∧ q2.reporterDone = false := by
      cases w with
      | recv => exact ⟨[], q1, rfl, hres1, rfl, rfl, rfl, hw, hrep1⟩
      | send r =>
        obtain ⟨s2, q2, hrun2, ha, hb, _, hc, hd, he, hf⟩ :=
          settle_worker lowerTable lookupTXT q1 r hw hres1 hrep1
        exact ⟨s2, q2, hrun2, ha, hb, hc, hd, he, hf⟩
      | done =>
        have hmem : WorkerPc.done ∈ p.workers := by
          rw [← hwrk1]
          exact List.get?_mem hw
        exact absurd hpc (h3 (h6 hmem))
    obtain ⟨s2, q2, hrun2, hres2, hpc2, hdom2, hrecv2, hw2, hrep2⟩ := hsettled
    have hle2 : q2.received ≤ q2.domains.length := by
      rw [hrecv2, hdom2, hrecv1, hdom1]
      exact h2
    obtain ⟨s3, q3, hrun3, hres3, hpc3, _, _, hrecv3, hw3, hrep3⟩ :=
      drain_domains lowerTable lookupTXT (q2.domains.length - q2.received) q2 rfl hle2 hw2
        hres2 hrep2
    have hpcq3 : q3.pc = .readLoop := by rw [hpc3, hpc2, hpc1, hpc]
    obtain ⟨s4, q4, hrun4, hq4⟩ :=
      leave_readLoop lowerTable lookupTXT q3.input q3 rfl hpcq3 hrecv3 hw3 hres3 hrep3
    refine ⟨s1 ++ (s2 ++ (s3 ++ s4)), q4, ?_, hq4⟩
    rw [run_append _ _ _ _ _ _ hrun1, run_append _ _ _ _ _ _ hrun2,
      run_append _ _ _ _ _ _ hrun3]
    exact hrun4
  · exact ⟨[], p, rfl, hpc⟩

theorem longLine_size : longLine.utf8ByteSize = 65536 := by
  have hgo : ∀ n : Nat, String.utf8ByteSize.go (List.replicate n 'a') = n := by
    intro n
    induction n with
    | zero => rfl
    | succ n ih =>
      simp only [List.replicate_succ, String.utf8ByteSize.go, ih]
      rfl
  exact hgo 65536

theorem readable_longLine (rest : List String) : readable (longLine :: rest) = [] := by
  simp [readable, List.takeWhile_cons, longLine_size, maxScanTokenSize]

theorem init_intake (threads : Int) (lines : List String) (w : World) :
    (Pipeline.init threads lines w).domains ++
        specIntake (readable (Pipeline.init threads lines w).input) =
      specIntake (readable lines) ∧
    ((Pipeline.init threads lines w).pc ≠ .readLoop →
      readable (Pipeline.init threads lines w).input = []) ∧
    (Pipeline.init threads lines w).input <:+ lines :=
  ⟨by simp [Pipeline.init], fun hne => absurd rfl hne, List.suffix_refl _⟩

theorem step_starved (lowerTable : Char → Char) (lookupTXT : Resolver) (n : Nat)
    (t : Thread) (p q : Pipeline) (h : step lowerTable lookupTXT t p = some q)
    (hinv : p.workers = [] ∧ p.received = 0 ∧ p.pc = .readLoop ∧ p.domains.length ≤ chanCap ∧
      p.domains.length + p.input.length = n ∧ chanCap < n ∧ ∀ l ∈ p.input, l = "a.com") :
    q.workers = [] ∧ q.received = 0 ∧ q.pc = .readLoop ∧ q.domains.length ≤ chanCap ∧
      q.domains.length + q.input.length = n ∧ chanCap < n ∧ ∀ l ∈ q.input, l = "a.com" := by
  obtain ⟨hw, hrecv, hpc, hcap, hsum, hn, hall⟩ := hinv
  cases t with
  | main =>
    rcases hin : p.input with _ | ⟨raw, rest⟩
    · rw [hin] at hsum
      simp only [List.length_nil, Nat.add_zero] at hsum
      omega
    · have hraw : raw = "a.com" := hall raw (by rw [hin]; exact List.mem_cons_self raw rest)
      have hrest : ∀ l ∈ rest, l = "a.com" := fun l hl =>
        hall l (by rw [hin]; exact List.mem_cons_of_mem raw hl)
      subst hraw
      have hscan : scannerScan ("a.com" :: rest) = some ("a.com", rest) := rfl
      have htrim : TrimSpace "a.com" = "a.com" := by decide
      rw [hin] at hsum
      simp only [List.length_cons] at hsum
      by_cases hroom : p.domains.length < chanCap
      · simp [step, stepMain, hpc, hin, hscan, htrim, hrecv, hroom] at h
        subst h
        refine ⟨hw, rfl, rfl, ?_, ?_, hn, hrest⟩
        · simp only [List.length_append, List.length_singleton]
          omega
        · simp only [List.length_append, List.length_singleton]
          omega
      · simp [step, stepMain, hpc, hin, hscan, htrim, hrecv, hroom] at h
  | worker i =>
    simp [step, stepWorker, hw] at h
  | reporter =>
    obtain ⟨h1, h2, h3, h4, h5, _⟩ := stepReporter_frame p q h
    rw [h1, h2, h3, h4, h5]
    exact ⟨hw, hrecv, hpc, hcap, hsum, hn, hall⟩

theorem run_unreadable (long : String) (hlong : ¬ long.utf8ByteSize < maxScanTokenSize) :
    (scanFromFile id exampleResolver 1 [long, "b.com"]
        [.main, .main, .worker 0, .main, .main, .reporter, .main] World.fresh).map
      (fun p => (p.pc, p.domains, p.reporterDone)) = some (.returned, [], true) := by
  have hscan : scannerScan [long, "b.com"] = none := by
    simp [scannerScan, hlong]
  simp [scanFromFile, run, step, stepMain, stepWorker, stepReporter, Pipeline.init, hscan]

/-! ## Producer -/

/-- C9 (as amended). For raw lines that each fit the scanner's buffer: under every schedule,
the values sent on `domains` so far followed by the trimmed, non-empty forms of the unread
lines are the trimmed, non-empty forms of all lines in file order, so the values sent are
always an initial part of that sequence and are exactly that sequence once the main goroutine
has left the read loop; every value sent is non-empty, is unchanged by trimming and is kept as
`Domain` by `scanDomain`; every result held by a worker or waiting in `results` is the scan of
a value sent.  With at least one worker, every execution, however far it has gone, can be
continued so that the main goroutine leaves the read loop with exactly that sequence sent.  A
line made only of white space contributes nothing to the sequence. -/
theorem scanFromFile_intake (lines : List String)
    (hshort : ∀ line ∈ lines, line.utf8ByteSize < maxScanTokenSize) :
    (∀ (lowerTable : Char → Char) (lookupTXT : Resolver) (threads : Int) (w : World)
      (schedule : List Thread) (p : Pipeline),
      scanFromFile lowerTable lookupTXT threads lines schedule w = some p →
        p.domains ++ specIntake p.input = specIntake lines ∧
        (p.pc ≠ .readLoop → p.domains = specIntake lines) ∧
        (∀ d ∈ p.domains, d ≠ "" ∧ TrimSpace d = d ∧
          (scanDomain lowerTable lookupTXT d).Domain = d) ∧
        (∀ r ∈ p.results, ∃ d ∈ p.domains, r = scanDomain lowerTable lookupTXT d) ∧
        (∀ r, WorkerPc.send r ∈ p.workers →
          ∃ d ∈ p.domains, r = scanDomain lowerTable lookupTXT d)) ∧
    (∀ (lowerTable : Char → Char) (lookupTXT : Resolver) (threads : Int) (w : World),
      1 ≤ threads →
      ∀ (schedule : List Thread) (p : Pipeline),
        scanFromFile lowerTable lookupTXT threads lines schedule w = some p →
        ∃ more q, scanFromFile lowerTable lookupTXT threads lines (schedule ++ more) w = some q ∧
          q.pc ≠ .readLoop ∧ q.domains = specIntake lines) ∧
    (∀ (before after : List String) (line : String), lines = before ++ line :: after →
      (∀ c ∈ line.data, isSpace c = true) →
      specIntake lines = specIntake before ++ specIntake after) := by
  have hsafe : ∀ (lowerTable : Char → Char) (lookupTXT : Resolver) (threads : Int) (w : World)
      (schedule : List Thread) (p : Pipeline),
      scanFromFile lowerTable lookupTXT threads lines schedule w = some p →
        p.domains ++ specIntake p.input = specIntake lines ∧
        (p.pc ≠ .readLoop → p.domains = specIntake lines) := by
    intro lowerTable lookupTXT threads w schedule p hrun
    obtain ⟨hsent, hdone, hsuf⟩ := run_invariant lowerTable lookupTXT
      (fun p => p.domains ++ specIntake (readable p.input) = specIntake (readable lines) ∧
        (p.pc ≠ .readLoop → readable p.input = []) ∧ p.input <:+ lines)
      (fun t p q h hp => step_intake lowerTable lookupTXT lines t p q h hp)
      schedule (Pipeline.init threads lines w) p hrun (init_intake threads lines w)
    have hin : readable p.input = p.input :=
      readable_of_short p.input (fun line hl => hshort line (hsuf.subset hl))
    rw [readable_of_short lines hshort] at hsent
    refine ⟨by rw [← hin]; exact hsent, fun hne => ?_⟩
    rw [hdone hne] at hsent
    simpa [specIntake] using hsent
  refine ⟨?_, ?_, ?_⟩
  · intro lowerTable lookupTXT threads w schedule p hrun
    obtain ⟨hsent, hdone⟩ := hsafe lowerTable lookupTXT threads w schedule p hrun
    obtain ⟨hres, hwrk⟩ := run_invariant lowerTable lookupTXT
      (fun p => (∀ r ∈ p.results, ∃ d ∈ p.domains, r = scanDomain lowerTable lookupTXT d) ∧
        (∀ r, WorkerPc.send r ∈ p.workers →
          ∃ d ∈ p.domains, r = scanDomain lowerTable lookupTXT d))
      (fun t p q h hp => step_flow lowerTable lookupTXT t p q h hp)
      schedule (Pipeline.init threads lines w) p hrun
      ⟨by simp [Pipeline.init], by
        intro r hr
        have := List.eq_of_mem_replicate hr
        cases this⟩
    refine ⟨hsent, hdone, fun d hd => ?_, hres, hwrk⟩
    have hmem : d ∈ specIntake lines := by
      rw [← hsent]
      exact List.mem_append_left _ hd
    obtain ⟨hne, htrim⟩ := specIntake_mem lines d hmem
    refine ⟨hne, htrim, ?_⟩
    rw [scanDomain_fields]
    exact htrim
  · intro lowerTable lookupTXT threads w hthreads schedule p hrun
    have halive := run_invariant lowerTable lookupTXT
      (fun p => 0 < p.workers.length ∧ p.received ≤ p.domains.length ∧
        (p.domainsClosed = true → p.pc ≠ .readLoop) ∧
        (p.resultsClosed = true → p.pc ≠ .readLoop) ∧
        (p.reporterDone = true → p.resultsClosed = true) ∧
        (WorkerPc.done ∈ p.workers → p.domainsClosed = true))
      (fun t p q h hp => step_alive lowerTable lookupTXT t p q h hp)
      schedule (Pipeline.init threads lines w) p hrun
      ⟨by simp only [Pipeline.init, List.length_replicate]; omega, Nat.le_refl _,
        fun h => by simp [Pipeline.init] at h, fun h => by simp [Pipeline.init] at h,
        fun h => by simp [Pipeline.init] at h, fun h => by
          have := List.eq_of_mem_replicate h
          cases this⟩
    obtain ⟨more, q, hmore, hq⟩ := can_leave_readLoop lowerTable lookupTXT p halive
    have hfull : scanFromFile lowerTable lookupTXT threads lines (schedule ++ more) w
        = some q := by
      unfold scanFromFile
      rw [run_append lowerTable lookupTXT schedule more _ p hrun]
      exact hmore
    exact ⟨more, q, hfull, hq,
      (hsafe lowerTable lookupTXT threads w (schedule ++ more) q hfull).2 hq⟩
  · intro before after line hsplit hblank
    rw [hsplit]
    simp [specIntake, TrimSpace_blank line hblank]

theorem scanFromFile_intake_witness :
    (∃ p, scanFromFile id exampleResolver 1 ["a.com", " \t", " b.com\r"]
        [.main, .main, .main, .main, .main, .worker 0, .worker 0, .worker 0, .worker 0,
          .worker 0, .reporter, .reporter, .main, .main, .reporter, .main] World.fresh = some p ∧
      p.pc = .returned ∧ p.domains = ["a.com", "b.com"] ∧ p.received = 2 ∧
      p.world.vulnFile = some { content := "a.com\nb.com\n", closed := true } ∧
      p.domains ++ specIntake p.input = specIntake ["a.com", " \t", " b.com\r"] ∧
      (p.pc ≠ .readLoop → p.domains = specIntake ["a.com", " \t", " b.com\r"])) ∧
    (∃ more q,
      scanFromFile id exampleResolver 1 ["a.com", " \t", " b.com\r"]
        ([.main, .worker 0] ++ more) World.fresh = some q ∧
      q.pc ≠ .readLoop ∧ q.domains = specIntake ["a.com", " \t", " b.com\r"]) ∧
    specIntake ["a.com", " \t", " b.com\r"] = specIntake ["a.com"] ++ specIntake [" b.com\r"] ∧
    specIntake ["a.com", " \t", " b.com\r"] = ["a.com", "b.com"] :=
  ⟨⟨_, rfl, rfl, rfl, rfl, rfl,
      ((scanFromFile_intake ["a.com", " \t", " b.com\r"] (by decide)).1 id exampleResolver 1
        World.fresh
        [.main, .main, .main, .main, .main, .worker 0, .worker 0, .worker 0, .worker 0,
          .worker 0, .reporter, .reporter, .main, .main, .reporter, .main] _ rfl).1,
      ((scanFromFile_intake ["a.com", " \t", " b.com\r"] (by decide)).1 id exampleResolver 1
        World.fresh
        [.main, .main, .main, .main, .main, .worker 0, .worker 0, .worker 0, .worker 0,
          .worker 0, .reporter, .reporter, .main, .main, .reporter, .main] _ rfl).2.1⟩,
    (scanFromFile_intake ["a.com", " \t", " b.com\r"] (by decide)).2.1 id exampleResolver 1
      World.fresh (by decide) [.main, .worker 0] _ rfl,
    (scanFromFile_intake ["a.com", " \t", " b.com\r"] (by decide)).2.2 ["a.com"] [" b.com\r"]
      " \t" rfl (by decide),
    by decide⟩

/-- C9 (counterexample). A file whose first line has 65536 bytes and whose second line is
`b.com`: `b.com` belongs to the trimmed, non-empty lines, yet under every schedule nothing is
ever sent on `domains`, and there is a schedule on which `scanFromFile` returns having sent
nothing.  A file of 101 lines `a.com` read with no worker (`threads = 0`): the trimmed,
non-empty lines are 101, yet under every schedule the main goroutine is still in the read loop
and at most 100 values have been sent. -/
theorem scanFromFile_intake_counterexample :
    "b.com" ∈ specIntake [longLine, "b.com"] ∧
    (∀ (schedule : List Thread) (p : Pipeline),
      scanFromFile id exampleResolver 1 [longLine, "b.com"] schedule World.fresh = some p →
      p.domains = []) ∧
    (scanFromFile id exampleResolver 1 [longLine, "b.com"]
        [.main, .main, .worker 0, .main, .main, .reporter, .main] World.fresh).map
      (fun p => (p.pc, p.domains, p.reporterDone)) = some (.returned, [], true) ∧
    (specIntake (List.replicate 101 "a.com")).length = 101 ∧
    (∀ (schedule : List Thread) (p : Pipeline),
      scanFromFile id exampleResolver 0 (List.replicate 101 "a.com") schedule World.fresh
        = some p →
      p.pc = .readLoop ∧ p.domains.length ≤ 100) := by
  refine ⟨?_, ?_, ?_, ?_, ?_⟩
  · have h : TrimSpace "b.com" = "b.com" := by decide
    simp [specIntake, h]
  · intro schedule p hrun
    obtain ⟨hsent, _, _⟩ := run_invariant id exampleResolver
      (fun p => p.domains ++ specIntake (readable p.input) =
          specIntake (readable [longLine, "b.com"]) ∧
        (p.pc ≠ .readLoop → readable p.input = []) ∧ p.input <:+ [longLine, "b.com"])
      (fun t p q h hp => step_intake id exampleResolver [longLine, "b.com"] t p q h hp)
      schedule (Pipeline.init 1 [longLine, "b.com"] World.fresh) p hrun
      (init_intake 1 [longLine, "b.com"] World.fresh)
    rw [readable_longLine] at hsent
    have hnil : p.domains ++ specIntake (readable p.input) = [] := by
      simpa [specIntake] using hsent
    exact (List.append_eq_nil.mp hnil).1
  · exact run_unreadable longLine (by rw [longLine_size]; decide)
  · have h : TrimSpace "a.com" = "a.com" := by decide
    simp [specIntake, h]
  · intro schedule p hrun
    obtain ⟨_, _, hpc, hcap, _⟩ := run_invariant id exampleResolver
      (fun p => p.workers = [] ∧ p.received = 0 ∧ p.pc = .readLoop ∧
        p.domains.length ≤ chanCap ∧ p.domains.length + p.input.length = 101 ∧ chanCap < 101 ∧
        ∀ l ∈ p.input, l = "a.com")
      (fun t p q h hp => step_starved id exampleResolver 101 t p q h hp)
      schedule (Pipeline.init 0 (List.replicate 101 "a.com") World.fresh) p hrun
      ⟨rfl, rfl, rfl, by simp [Pipeline.init], by simp [Pipeline.init], by decide,
        fun l hl => List.eq_of_mem_replicate hl⟩
    exact ⟨hpc, hcap⟩

/-! ## Pipeline shutdown -/

/-- C10. For the one-line input `a.com` with one worker and a resolver whose lookups fail (so
the result is flagged), there is a schedule in which the main goroutine passes `wg.Wait()`,
closes `results`, closes the ledger and returns while the worker's result is still waiting in
the `results` channel: nothing has been printed, the reporter has not finished and the closed
ledger is empty.  When the reporter runs afterwards its write fails and the ledger stays empty.
Only when the scheduler happens to run the reporter before the main goroutine closes the ledger
does the line `a.com` reach it. -/
theorem scanFromFile_closes_ledger_before_drain (lowerTable : Char → Char) :
    (scanFromFile lowerTable (fun _ => .error "no such host") 1 ["a.com"]
        [.main, .main, .main, .worker 0, .worker 0, .worker 0, .main, .main, .main]
        World.fresh).map
      (fun p => (p.pc, p.results, p.reporterDone, p.world)) =
      some (.returned,
        [{ Domain := "a.com", SPF := "", DMARC := "", SPFVuln := false, DMARCVuln := true }],
        false,
        { stdout := "", vulnFile := some { content := "", closed := true } }) ∧
    (scanFromFile lowerTable (fun _ => .error "no such host") 1 ["a.com"]
        [.main, .main, .main, .worker 0, .worker 0, .worker 0, .main, .main, .main,
          .reporter, .reporter]
        World.fresh).map
      (fun p => (p.pc, p.results, p.reporterDone, p.world.vulnFile)) =
      some (.returned, [], true, some { content := "", closed := true }) ∧
    (scanFromFile lowerTable (fun _ => .error "no such host") 1 ["a.com"]
        [.main, .main, .main, .worker 0, .worker 0, .worker 0, .reporter, .main, .main, .main,
          .reporter]
        World.fresh).map
      (fun p => (p.pc, p.results, p.reporterDone, p.world.vulnFile)) =
      some (.returned, [], true, some { content := "a.com\n", closed := true }) :=
  ⟨rfl, rfl, rfl⟩

end Espoofing
